import Mathlib

/-!
Verification of the pyBackTester event-driven backtesting engine.

The Python sources (`pybacktester/data.py`, `portfolio.py`, `execution.py`,
`backtester.py`, `strategies.py`, `performance.py`) are shallowly embedded:
dictionaries keyed by symbol become total functions out of `String`, float
prices become rationals, timestamps become natural-number day counts, the
event queue becomes a FIFO `List Event`, and code paths that raise are
modelled with `Option` (`none` = the exception propagates).
-/

namespace PyBacktester

/-- One OHLCV bar: the tuple `(datetime, open, high, low, close, adj_close, volume)`
built in `HistoricCSVDataHandler.update_bars`.  Positional index `4` of the tuple is
`close` and index `5` is `adj_close`.  Timestamps are day counts, prices rationals. -/
structure Bar where
  dt : Nat
  open_ : ℚ
  high : ℚ
  low : ℚ
  close : ℚ
  adj_close : ℚ
  volume : ℚ
  deriving DecidableEq

/-- Event variants.  Modelled from the spec: `pybacktester/event.py` is absent from the
sources (only its importers are present), so the four event classes follow the spec's
data model (§3) together with every constructor call in `strategies.py`,
`portfolio.py` and `execution.py`:
`SignalEvent(strategy_id, symbol, datetime, signal_type, strength)`,
`OrderEvent(symbol, order_type, quantity, direction)`,
`FillEvent(datetime, symbol, exchange, quantity, direction, fill_cost, commission)`.
Per spec §4.3 the simulated execution charges no commission, so the `commission`
argument omitted at the `FillEvent` call site in `execution.py` is `0`. -/
inductive Event where
  | market : Event
  | signal (strategy_id : Nat) (symbol : String) (dt : Nat) (signal_type : String)
      (strength : ℚ) : Event
  | order (symbol : String) (order_type : String) (quantity : Int)
      (direction : String) : Event
  | fill (dt : Nat) (symbol : String) (exchange : String) (quantity : Int)
      (direction : String) (fill_cost : ℚ) (commission : ℚ) : Event
  deriving DecidableEq

/-- Direction string carried by a fill event (`""` for any other event). -/
def fillDirection : Event → String
  | Event.fill _ _ _ _ direction _ _ => direction
  | _ => ""

/-- Pointwise update of a symbol-keyed dictionary modelled as a total function. -/
def updMap {α : Type} (m : String → α) (k : String) (v : α) : String → α :=
  fun k' => if k' = k then v else m k'

/-! ## `data.py` — `HistoricCSVDataHandler` -/

/-- State of `HistoricCSVDataHandler`: `symbol_data` holds the bars not yet replayed
(the `iterrows` iterator), `latest_symbol_data` the bars observed so far.  Symbol-keyed
dictionaries are total functions; their meaningful keys are exactly `symbol_list`, and
lookups the source guards with `try/except KeyError` test `symbol_list` membership. -/
structure DataHandler where
  symbol_list : List String
  symbol_data : String → List Bar
  latest_symbol_data : String → List Bar
  continue_backtest : Bool

/-- Python's slice `l[-N:]` as used in `get_latest_bars` (`l[-0:]` is all of `l`). -/
def pySliceLast {α : Type} (l : List α) (n : Nat) : List α :=
  if n = 0 then l else l.drop (l.length - n)

/-- `HistoricCSVDataHandler.get_latest_bars`: the last `N` observed bars for `symbol`.
`none` models the `KeyError` the source prints and re-raises when `symbol` is not a
key of `latest_symbol_data` (its keys are exactly `symbol_list`). -/
def DataHandler.get_latest_bars (dh : DataHandler) (symbol : String) (N : Nat := 1) :
    Option (List Bar) :=
  if symbol ∈ dh.symbol_list then some (pySliceLast (dh.latest_symbol_data symbol) N)
  else none

/-- Body of the `for s in self.symbol_list` loop of `update_bars`: pop the next bar of
`s` if any, else record exhaustion (`StopIteration` sets `continue_backtest = False`). -/
def update_bars_step (dh : DataHandler) (s : String) : DataHandler :=
  match dh.symbol_data s with
  | [] => { dh with continue_backtest := false }
  | b :: rest =>
    { dh with
      symbol_data := updMap dh.symbol_data s rest
      latest_symbol_data := updMap dh.latest_symbol_data s (dh.latest_symbol_data s ++ [b]) }

/-- `HistoricCSVDataHandler.update_bars`: advance every symbol one bar, then enqueue a
single Market event unless some iterator was exhausted. -/
def DataHandler.update_bars (dh : DataHandler) : DataHandler × List Event :=
  let dh' := dh.symbol_list.foldl update_bars_step dh
  if dh'.continue_backtest then (dh', [Event.market]) else (dh', [])

/-- Adjusted close of the most recent observed bar of `s` (`0` when none observed). -/
def latestAdjCloseD (dh : DataHandler) (s : String) : ℚ :=
  ((dh.latest_symbol_data s).getLast?).elim 0 (fun b => b.adj_close)

/-- Close of the most recent observed bar of `s` (`0` when none observed). -/
def latestCloseD (dh : DataHandler) (s : String) : ℚ :=
  ((dh.latest_symbol_data s).getLast?).elim 0 (fun b => b.close)

/-! ### `_open_convert_csv_files` -/

/-- Insertion step of a stable sort of bars by timestamp (pandas `sort_index`). -/
def insertBar (b : Bar) : List Bar → List Bar
  | [] => [b]
  | c :: cs => if b.dt ≤ c.dt then b :: c :: cs else c :: insertBar b cs

/-- Stable sort of a bar series by timestamp, modelling `DataFrame.sort_index()`. -/
def sortBars : List Bar → List Bar
  | [] => []
  | b :: bs => insertBar b (sortBars bs)

/-- The `comb_index` loop of `_open_convert_csv_files`.  The first symbol installs its
index; for every later symbol the source evaluates `comb_index.union(...)` but discards
the result (`pandas.Index.union` is pure and the assignment is missing), so the
accumulator is returned unchanged. -/
def comb_index_code (raw : String → List Bar) : List String → Option (List Nat) →
    Option (List Nat)
  | [], acc => acc
  | s :: rest, acc =>
    match acc with
    | none => comb_index_code raw rest (some ((sortBars (raw s)).map (fun b => b.dt)))
    | some ci => comb_index_code raw rest (some ci)

/-- `reindex(method='pad')` cell: the last row of the (sorted) series with timestamp
`≤ t`, restamped at `t`; `none` models the all-`NaN` row produced when `t` precedes the
series' first observation. -/
def padRow (series : List Bar) (t : Nat) : Option Bar :=
  ((series.filter (fun b => b.dt ≤ t)).getLast?).map (fun b => { b with dt := t })

/-- `DataFrame.reindex(index=idx, method='pad')` over a sorted series. -/
def reindex_pad (series : List Bar) (idx : List Nat) : List (Nat × Option Bar) :=
  idx.map (fun t => (t, padRow series t))

/-- `HistoricCSVDataHandler._open_convert_csv_files` on raw per-symbol CSV series:
returns the reindexed per-symbol replay sequences and the calendar actually used. -/
def open_convert_csv_files (raw : String → List Bar) (symbol_list : List String) :
    (String → List (Nat × Option Bar)) × List Nat :=
  let ci := (comb_index_code raw symbol_list none).getD []
  (fun s => if s ∈ symbol_list then reindex_pad (sortBars (raw s)) ci else [], ci)

/-! ## `portfolio.py` — `NaivePortfolio` -/

/-- One row of the positions ledger (`all_positions`): a timestamp plus the
symbol-keyed dictionary of signed position quantities. -/
structure PositionsRow where
  dt : Nat
  pos : String → Int

/-- One row of the holdings ledger (`all_holdings`). -/
structure HoldingsRow where
  dt : Nat
  values : String → ℚ
  cash : ℚ
  commission : ℚ
  total : ℚ

/-- The `current_holdings` dictionary. -/
structure Holdings where
  values : String → ℚ
  cash : ℚ
  commission : ℚ
  total : ℚ

/-- One element of `all_trades`, appended by `update_fill`. -/
structure Trade where
  symbol : String
  direction : String
  quantity : Int
  price : ℚ
  commission : ℚ
  profit : ℚ
  dt : Nat
  deriving DecidableEq

/-- State of `NaivePortfolio`.  `last_fill_price s = none` models the combination of
`hasattr(self, '_last_fill_price')` being false or `s` missing from that dictionary. -/
structure NaivePortfolio where
  symbol_list : List String
  start_date : Nat
  initial_capital : ℚ
  all_positions : List PositionsRow
  current_positions : String → Int
  all_holdings : List HoldingsRow
  current_holdings : Holdings
  all_trades : List Trade
  last_fill_price : String → Option ℚ

/-- `Portfolio.construct_all_positions`: the single seed row stamped `start_date`. -/
def construct_all_positions (_symbol_list : List String) (start_date : Nat) :
    List PositionsRow :=
  [{ dt := start_date, pos := fun _ => 0 }]

/-- `Portfolio.construct_all_holdings`: the single seed row with
`cash = total = initial_capital` and zero commission. -/
def construct_all_holdings (_symbol_list : List String) (start_date : Nat)
    (initial_capital : ℚ) : List HoldingsRow :=
  [{ dt := start_date, values := fun _ => 0, cash := initial_capital, commission := 0,
     total := initial_capital }]

/-- `Portfolio.construct_current_holdings`. -/
def construct_current_holdings (initial_capital : ℚ) : Holdings :=
  { values := fun _ => 0, cash := initial_capital, commission := 0,
    total := initial_capital }

/-- `NaivePortfolio.__init__` (via `Portfolio.__init__`): seeded ledgers, zero
positions, full cash, no trades, no `_last_fill_price` attribute yet. -/
def NaivePortfolio.init (symbol_list : List String) (start_date : Nat)
    (initial_capital : ℚ) : NaivePortfolio :=
  { symbol_list := symbol_list
    start_date := start_date
    initial_capital := initial_capital
    all_positions := construct_all_positions symbol_list start_date
    current_positions := fun _ => 0
    all_holdings := construct_all_holdings symbol_list start_date initial_capital
    current_holdings := construct_current_holdings initial_capital
    all_trades := []
    last_fill_price := fun _ => none }

/-- The market-value loop of `update_timeindex`: for each symbol with at least one
observed bar, add `current_positions[s] * bars[0][5]` (adjusted close) to the running
total and record it in the row's symbol column. -/
def holdingsLoop (dh : DataHandler) (pos : String → Int) :
    List String → (String → ℚ) → ℚ → (String → ℚ) × ℚ
  | [], vals, total => (vals, total)
  | s :: rest, vals, total =>
    match dh.get_latest_bars s 1 with
    | some (b :: _) =>
      let market_value := (pos s : ℚ) * b.adj_close
      holdingsLoop dh pos rest (updMap vals s market_value) (total + market_value)
    | _ => holdingsLoop dh pos rest vals total

/-- Per-symbol contribution of the `update_timeindex` market-value loop. -/
def mvf (dh : DataHandler) (pos : String → Int) (s : String) : ℚ :=
  match dh.get_latest_bars s 1 with
  | some (b :: _) => (pos s : ℚ) * b.adj_close
  | _ => 0

/-- `Portfolio.update_timeindex`: append one positions row (a copy of
`current_positions` stamped with the feed's latest timestamp) and one holdings row
whose `total` is `cash - commission + Σ market values`, and store that total back into
`current_holdings`.  The `| [] => p` and `| none => p` fallbacks stand for the
`IndexError`/`KeyError` the source would raise on an empty or misaligned symbol list,
both unreachable for engine-built portfolios (the engine shares one `symbol_list`);
`| some [] => p` is the source's `if not bars: return`. -/
def NaivePortfolio.update_timeindex (p : NaivePortfolio) (dh : DataHandler) :
    NaivePortfolio :=
  match p.symbol_list with
  | [] => p
  | s0 :: _ =>
    match dh.get_latest_bars s0 1 with
    | none => p
    | some [] => p
    | some (b :: _) =>
      let latest_datetime := b.dt
      let dp : PositionsRow :=
        { dt := latest_datetime
          pos := fun s => if s ∈ p.symbol_list then p.current_positions s else 0 }
      let cash := p.current_holdings.cash
      let commission := p.current_holdings.commission
      let res := holdingsLoop dh p.current_positions p.symbol_list (fun _ => 0)
        (cash - commission)
      let dhRow : HoldingsRow :=
        { dt := latest_datetime, values := res.1, cash := cash,
          commission := commission, total := res.2 }
      { p with
        all_positions := p.all_positions ++ [dp]
        all_holdings := p.all_holdings ++ [dhRow]
        current_holdings := { p.current_holdings with total := res.2 } }

/-- `NaivePortfolio.update_signal`: a `SIGNAL` event yields exactly one market order of
the fixed quantity 100 in the signal's stated direction (its strength is never read);
any other event yields nothing.  The portfolio state itself is untouched — the method
only writes to the event queue, so it returns the events to enqueue. -/
def NaivePortfolio.update_signal (_p : NaivePortfolio) (event : Event) : List Event :=
  match event with
  | Event.signal _ symbol _ signal_type _ => [Event.order symbol "MKT" 100 signal_type]
  | _ => []

/-- The sign `update_fill` assigns to a direction: `BUY ↦ 1`, `SELL ↦ -1`, and any
other string defaults to `1` (the source's "Default to BUY for unknown directions"). -/
def fill_dir_of (direction : String) : Int :=
  if direction = "BUY" then 1 else if direction = "SELL" then -1 else 1

/-- `NaivePortfolio.update_fill`: profit is computed first from the pre-fill
`_last_fill_price` memo and pre-fill position, then the memo is overwritten, a trade
record appended, the position shifted by `fill_dir * quantity`, and cash/commission
updated. -/
def NaivePortfolio.update_fill (p : NaivePortfolio) (event : Event) : NaivePortfolio :=
  match event with
  | Event.fill dt symbol _exchange quantity direction fill_cost commission =>
    let fill_dir := fill_dir_of direction
    let profit : ℚ :=
      match p.last_fill_price symbol with
      | some lastp =>
        if fill_dir = -1 then (fill_cost - lastp) * (quantity : ℚ)
        else if fill_dir = 1 then
          (if p.current_positions symbol < 0 then (lastp - fill_cost) * (quantity : ℚ)
           else 0)
        else 0
      | none => 0
    let trade : Trade :=
      { symbol := symbol, direction := direction, quantity := quantity,
        price := fill_cost, commission := commission, profit := profit, dt := dt }
    { p with
      last_fill_price := updMap p.last_fill_price symbol (some fill_cost)
      all_trades := p.all_trades ++ [trade]
      current_positions := updMap p.current_positions symbol
        (p.current_positions symbol + fill_dir * quantity)
      current_holdings :=
        { p.current_holdings with
          cash := p.current_holdings.cash - (fill_dir : ℚ) * (fill_cost * (quantity : ℚ))
            - commission
          commission := p.current_holdings.commission + commission } }
  | _ => p

/-! ## `execution.py` — `SimulatedExecutionHandler` -/

/-- `SimulatedExecutionHandler.execute_order`: an `ORDER` event becomes one fill at the
latest bar's close (`bars[0][4]`), falling back to the constant `75.0` when the handler
has no feed, the symbol has no observed bar, or the lookup raises (the bare
`except Exception` swallows the `KeyError`); any other event yields nothing. -/
def execute_order (bars : Option DataHandler) (now : Nat) (event : Event) : List Event :=
  match event with
  | Event.order symbol _order_type quantity direction =>
    let fill_cost : ℚ :=
      match bars with
      | none => 75
      | some dh =>
        match dh.get_latest_bars symbol 1 with
        | some (b :: _) => b.close
        | some [] => 75
        | none => 75
    [Event.fill now symbol "ARCA" quantity direction fill_cost 0]
  | _ => []

/-! ## `backtester.py` — the engine -/

/-- A pluggable strategy: its mutable state together with `calculate_signals`, which
reads the bar history and returns the new state and the events it enqueues. -/
structure Strategy (σ : Type) where
  calculate_signals : σ → DataHandler → σ × List Event

/-- Full engine state of `Backtester._run_backtest`: the data handler, the strategy's
state, the portfolio, the FIFO event queue (head is dequeued next, new events are
appended at the tail), and the observability counters. -/
structure Backtester (σ : Type) where
  dh : DataHandler
  strategyState : σ
  portfolio : NaivePortfolio
  events : List Event
  signals : Nat
  orders : Nat
  fills : Nat

/-- `Backtester` construction per `_generate_trading_instances`: fresh portfolio over
the handler's symbol list, empty queue, zeroed counters. -/
def Backtester.init {σ : Type} (dh : DataHandler) (s0 : σ) (start_date : Nat)
    (initial_capital : ℚ) : Backtester σ :=
  { dh := dh, strategyState := s0,
    portfolio := NaivePortfolio.init dh.symbol_list start_date initial_capital,
    events := [], signals := 0, orders := 0, fills := 0 }

/-- One dispatch of the inner event loop: route the dequeued event by tag.  A Market
event runs `strategy.calculate_signals` and then `portfolio.update_timeindex`; Signal,
Order and Fill events go to `update_signal`, `execute_order` and `update_fill`, with
derived events appended at the tail of the queue. -/
def processEvent {σ : Type} (strat : Strategy σ) (now : Nat) (bt : Backtester σ)
    (event : Event) : Backtester σ :=
  match event with
  | Event.market =>
    let r := strat.calculate_signals bt.strategyState bt.dh
    { bt with
      strategyState := r.1
      events := bt.events ++ r.2
      portfolio := bt.portfolio.update_timeindex bt.dh }
  | Event.signal _ _ _ _ _ =>
    { bt with
      signals := bt.signals + 1
      events := bt.events ++ bt.portfolio.update_signal event }
  | Event.order _ _ _ _ =>
    { bt with
      orders := bt.orders + 1
      events := bt.events ++ execute_order (some bt.dh) now event }
  | Event.fill _ _ _ _ _ _ _ =>
    { bt with
      fills := bt.fills + 1
      portfolio := bt.portfolio.update_fill event }

/-- The inner `while True` loop of `_run_backtest`: dequeue and dispatch until
`queue.Empty` breaks out.  `fuel` bounds the number of dispatches; `none` means the
bound was hit (the source loop has no such bound). -/
def drain {σ : Type} (strat : Strategy σ) (now : Nat) (fuel : Nat) (bt : Backtester σ) :
    Option (Backtester σ) :=
  match bt.events with
  | [] => some bt
  | e :: rest =>
    match fuel with
    | 0 => none
    | Nat.succ f => drain strat now f (processEvent strat now { bt with events := rest } e)

/-- The outer `while True` loop of `_run_backtest`: while the feed has data, advance it
one bar (`update_bars`) and drain the queue; when `continue_backtest` is false, break
with the current state.  The first `Nat` argument bounds the outer iterations. -/
def runBacktest {σ : Type} (strat : Strategy σ) (now innerFuel : Nat) :
    Nat → Backtester σ → Option (Backtester σ)
  | 0, _ => none
  | Nat.succ n, bt =>
    if bt.dh.continue_backtest then
      match drain strat now innerFuel
          { bt with dh := (bt.dh.update_bars).1,
                    events := bt.events ++ (bt.dh.update_bars).2 } with
      | none => none
      | some bt1 => runBacktest strat now innerFuel n bt1
    else some bt

/-! ## `performance.py` — the pieces `calculate_cagr` depends on -/

/-- Tail of `Series.pct_change`: each value divided by its predecessor, minus one.
`none` models a non-finite float cell (the source's NaN/inf), produced here only when
the predecessor is zero. -/
def pctAux (prev : ℚ) : List ℚ → List (Option ℚ)
  | [] => []
  | x :: xs => (if prev = 0 then none else some (x / prev - 1)) :: pctAux x xs

/-- `Series.pct_change`: the first cell is NaN (`none`). -/
def pct_change : List ℚ → List (Option ℚ)
  | [] => []
  | x :: xs => none :: pctAux x xs

/-- `Series.cumprod()` with pandas' default `skipna=True`: NaN cells stay NaN without
poisoning the running product. -/
def cumprodSkipna (acc : ℚ) : List (Option ℚ) → List (Option ℚ)
  | [] => []
  | none :: xs => none :: cumprodSkipna acc xs
  | some v :: xs => some (acc * v) :: cumprodSkipna (acc * v) xs

/-- The `equity_curve` column of `PerformanceAnalyzer._create_equity_curve` from the
`total` column of the holdings ledger: cumulative product of `1 + returns`. -/
def equityCurveCol (totals : List ℚ) : List (Option ℚ) :=
  cumprodSkipna 1 ((pct_change totals).map (Option.map (fun r => 1 + r)))

/-- `PerformanceAnalyzer.calculate_cagr`.  The float power
`x ** (365.0 / days)` is kept abstract as `pw` — this claim is about control flow, not
the float value.  The outer `Option` models a raised exception: `none` for the
`IndexError` of an empty frame and, decisively, for the `ZeroDivisionError` of
`365.0 / days` when the ledger's first and last timestamps are `days = 0` apart.  The
inner `Option` models a NaN float result. -/
def calculate_cagr (pw : ℚ → ℚ → ℚ) (holdings : List HoldingsRow) : Option (Option ℚ) :=
  match holdings with
  | [] => none
  | h0 :: _ =>
    let start_date := h0.dt
    let end_date := ((holdings.map (fun h => h.dt)).getLast?).getD start_date
    let days : Int := (end_date : Int) - (start_date : Int)
    if days = 0 then none
    else
      match (equityCurveCol (holdings.map (fun h => h.total))).getLast? with
      | some (some e) => some (some (pw e ((365 : ℚ) / (days : ℚ)) - 1))
      | _ => some none

/-! ## `strategies.py` — `BuyAndHoldStrategy` (used to instantiate witnesses) -/

/-- Loop body of `BuyAndHoldStrategy.calculate_signals`: LONG once per symbol, the
first time a bar is available. -/
def buyAndHoldStep (now : Nat) (dh : DataHandler) (acc : (String → Bool) × List Event)
    (s : String) : (String → Bool) × List Event :=
  match dh.get_latest_bars s 1 with
  | some (_ :: _) =>
    if acc.1 s = false then
      (updMap acc.1 s true, acc.2 ++ [Event.signal 1 s now "LONG" 1])
    else acc
  | _ => acc

/-- `BuyAndHoldStrategy` as a `Strategy` value; its state is the `bought` dictionary,
initially all-false, and `utcnow()` is the abstract wall-clock `now`. -/
def buyAndHold (now : Nat) : Strategy (String → Bool) :=
  { calculate_signals := fun bought dh =>
      dh.symbol_list.foldl (buyAndHoldStep now dh) (bought, []) }

/-! ## Invariants and concrete instances used by the theorems -/

/-- Ledger-shape invariant of spec §8: the two ledgers have equal length and both still
begin with the seeded `start_date` row (all-zero positions; holdings with
`cash = total = initial_capital` and zero commission). -/
def SeededLedgers (p : NaivePortfolio) : Prop :=
  p.all_positions.length = p.all_holdings.length ∧
  (∃ r0, p.all_positions.head? = some r0 ∧ r0.dt = p.start_date ∧ ∀ s, r0.pos s = 0) ∧
  (∃ h0, p.all_holdings.head? = some h0 ∧ h0.dt = p.start_date ∧
    h0.cash = p.initial_capital ∧ h0.commission = 0 ∧ h0.total = p.initial_capital)

/-- A bar whose close (10) differs from its adjusted close (20). -/
def barObs : Bar :=
  { dt := 1, open_ := 10, high := 10, low := 10, close := 10, adj_close := 20,
    volume := 100 }

/-- A second bar, one day later. -/
def barObs2 : Bar :=
  { dt := 2, open_ := 11, high := 11, low := 11, close := 11, adj_close := 22,
    volume := 100 }

/-- A handler tracking `"A"` that has already observed `barObs`. -/
def dhObs : DataHandler :=
  { symbol_list := ["A"]
    symbol_data := fun _ => []
    latest_symbol_data := fun s => if s = "A" then [barObs] else []
    continue_backtest := true }

/-- A freshly opened handler for `"A"` with two bars still to replay. -/
def dhFresh : DataHandler :=
  { symbol_list := ["A"]
    symbol_data := fun s => if s = "A" then [barObs, barObs2] else []
    latest_symbol_data := fun _ => []
    continue_backtest := true }

/-- `dhObs` after its feed reported exhaustion. -/
def dhDone : DataHandler := { dhObs with continue_backtest := false }

/-- A freshly initialized portfolio over `"A"`. -/
def pA : NaivePortfolio := NaivePortfolio.init ["A"] 0 100000

/-- Portfolio short 50 units of `"A"` with a last-fill-price memo of 8. -/
def pShort : NaivePortfolio :=
  { pA with
    current_positions := fun _ => -50
    last_fill_price := fun s => if s = "A" then some 8 else none }

/-- A strategy that always emits one LONG signal for `"A"`. -/
def constStrat : Strategy Unit :=
  { calculate_signals := fun st _ => (st, [Event.signal 1 "A" 0 "LONG" 1]) }

/-- Engine state at the start of a bar tick: `barObs` observed, Market event queued. -/
def btTick : Backtester Unit :=
  { dh := dhObs, strategyState := (), portfolio := pA
    events := [Event.market], signals := 0, orders := 0, fills := 0 }

/-- The drained state of `btTick` (the `decide` runs the whole drain). -/
def btTickRes : Backtester Unit := (drain constStrat 0 10 btTick).get (by decide)

/-- Finished engine state: feed exhausted, queue empty. -/
def btFin : Backtester Unit :=
  { dh := dhDone, strategyState := (), portfolio := pA
    events := [], signals := 0, orders := 0, fills := 0 }

/-- A fresh buy-and-hold run over `dhFresh`. -/
def btRun : Backtester (String → Bool) := Backtester.init dhFresh (fun _ => false) 0 100000

/-- The finished state of the buy-and-hold run. -/
def btRunRes : Backtester (String → Bool) :=
  (runBacktest (buyAndHold 5) 5 10 5 btRun).get (by decide)

/-- Raw CSV series for the calendar claim: `"A"` trades only day 1, `"B"` days 1, 2. -/
def rawC3 : String → List Bar :=
  fun s => if s = "A" then [barObs] else if s = "B" then [barObs, barObs2] else []

/-- A holdings ledger whose first and last rows carry the same timestamp. -/
def sameDayLedger : List HoldingsRow :=
  [{ dt := 0, values := fun _ => 0, cash := 100000, commission := 0, total := 100000 },
   { dt := 0, values := fun _ => 0, cash := 110000, commission := 0, total := 110000 }]

/-! ## Helper lemmas -/

/-- The slice `l[-1:]` is the last element of `l`, or empty. -/
theorem pySliceLast_one {α : Type} (l : List α) :
    pySliceLast l 1 = (l.getLast?).elim [] (fun b => [b]) := by
  induction l with
  | nil => rfl
  | cons a t ih =>
    cases t with
    | nil => rfl
    | cons b t' =>
      have h1 : pySliceLast (a :: b :: t') 1 = pySliceLast (b :: t') 1 := by
        simp [pySliceLast]
      rw [h1, ih, List.getLast?_cons_cons]

/-- `get_latest_bars` on a tracked symbol is the slice of its observed history. -/
theorem get_latest_bars_of_mem (dh : DataHandler) {s : String}
    (h : s ∈ dh.symbol_list) (n : Nat) :
    dh.get_latest_bars s n = some (pySliceLast (dh.latest_symbol_data s) n) := by
  simp [DataHandler.get_latest_bars, h]

/-- With one observed bar or more, `get_latest_bars s 1` is the singleton holding the
most recent bar. -/
theorem get_latest_bars_one (dh : DataHandler) {s : String}
    (h : s ∈ dh.symbol_list) {b : Bar} (hb : (dh.latest_symbol_data s).getLast? = some b) :
    dh.get_latest_bars s 1 = some [b] := by
  rw [get_latest_bars_of_mem dh h, pySliceLast_one, hb]
  rfl

/-- The market-value contribution of a tracked symbol with observed history is its
position times the latest adjusted close. -/
theorem mvf_eq_latestAdjClose (dh : DataHandler) (pos : String → Int) {s : String}
    (hmem : s ∈ dh.symbol_list) (hne : dh.latest_symbol_data s ≠ []) :
    mvf dh pos s = (pos s : ℚ) * latestAdjCloseD dh s := by
  obtain ⟨b, hb⟩ := Option.isSome_iff_exists.mp (List.getLast?_isSome.mpr hne)
  simp [mvf, get_latest_bars_one dh hmem hb, latestAdjCloseD, hb]

/-- The running total of the `update_timeindex` market-value loop. -/
theorem holdingsLoop_total (dh : DataHandler) (pos : String → Int) (l : List String) :
    ∀ (vals : String → ℚ) (total : ℚ),
      (holdingsLoop dh pos l vals total).2 = total + (l.map (mvf dh pos)).sum := by
  induction l with
  | nil => intro vals total; simp [holdingsLoop]
  | cons s rest ih =>
    intro vals total
    cases hgl : dh.get_latest_bars s 1 with
    | none => simp [holdingsLoop, hgl, mvf, ih]
    | some bs =>
      cases bs with
      | nil => simp [holdingsLoop, hgl, mvf, ih]
      | cons b bs' =>
        simp only [holdingsLoop, hgl, mvf, ih, List.map_cons, List.sum_cons]
        ring

/-- `update_fill` never touches the ledgers, the start date or the capital. -/
theorem update_fill_preserves_ledgers (p : NaivePortfolio) (e : Event) :
    (p.update_fill e).all_positions = p.all_positions ∧
    (p.update_fill e).all_holdings = p.all_holdings ∧
    (p.update_fill e).start_date = p.start_date ∧
    (p.update_fill e).initial_capital = p.initial_capital := by
  cases e <;> simp [NaivePortfolio.update_fill]

/-- `update_timeindex` appends one row to each ledger, or returns the state
unchanged. -/
theorem update_timeindex_shape (p : NaivePortfolio) (dh : DataHandler) :
    ((p.update_timeindex dh).all_positions.length = p.all_positions.length + 1 ∧
     (p.update_timeindex dh).all_holdings.length = p.all_holdings.length + 1) ∨
    p.update_timeindex dh = p := by
  rcases h0 : p.symbol_list with _ | ⟨s0, tl⟩
  · right; simp [NaivePortfolio.update_timeindex, h0]
  · rcases hgl : dh.get_latest_bars s0 1 with _ | bs
    · right; simp [NaivePortfolio.update_timeindex, h0, hgl]
    · rcases bs with _ | ⟨b, bs'⟩
      · right; simp [NaivePortfolio.update_timeindex, h0, hgl]
      · left
        constructor <;> simp [NaivePortfolio.update_timeindex, h0, hgl]

/-- `update_timeindex` never changes the start date or the capital. -/
theorem update_timeindex_preserves_params (p : NaivePortfolio) (dh : DataHandler) :
    (p.update_timeindex dh).start_date = p.start_date ∧
    (p.update_timeindex dh).initial_capital = p.initial_capital := by
  rcases h0 : p.symbol_list with _ | ⟨s0, tl⟩
  · simp [NaivePortfolio.update_timeindex, h0]
  · rcases hgl : dh.get_latest_bars s0 1 with _ | bs
    · simp [NaivePortfolio.update_timeindex, h0, hgl]
    · rcases bs with _ | ⟨b, bs'⟩
      · simp [NaivePortfolio.update_timeindex, h0, hgl]
      · simp [NaivePortfolio.update_timeindex, h0, hgl]

/-- The single holdings row appended by a successful `update_timeindex`, together with
its mark-to-market total. -/
theorem update_timeindex_spec (p : NaivePortfolio) (dh : DataHandler)
    (hsl : p.symbol_list = dh.symbol_list)
    (hnil : p.symbol_list ≠ [])
    (hall : ∀ s ∈ p.symbol_list, dh.latest_symbol_data s ≠ []) :
    ∃ r : HoldingsRow,
      (p.update_timeindex dh).all_positions.length = p.all_positions.length + 1 ∧
      (p.update_timeindex dh).all_holdings = p.all_holdings ++ [r] ∧
      r.cash = p.current_holdings.cash ∧
      r.commission = p.current_holdings.commission ∧
      r.total = p.current_holdings.cash - p.current_holdings.commission +
        (p.symbol_list.map
          (fun s => (p.current_positions s : ℚ) * latestAdjCloseD dh s)).sum := by
  rcases h0 : p.symbol_list with _ | ⟨s0, tl⟩
  · exact absurd h0 hnil
  · have hmem0 : s0 ∈ p.symbol_list := by rw [h0]; exact List.mem_cons_self s0 tl
    have hne0 : dh.latest_symbol_data s0 ≠ [] := hall s0 hmem0
    obtain ⟨b0, hb0⟩ := Option.isSome_iff_exists.mp (List.getLast?_isSome.mpr hne0)
    have hmem0' : s0 ∈ dh.symbol_list := hsl ▸ hmem0
    have hgl : dh.get_latest_bars s0 1 = some [b0] := get_latest_bars_one dh hmem0' hb0
    have hmap : ((s0 :: tl).map (mvf dh p.current_positions)) =
        (s0 :: tl).map
          (fun s => (p.current_positions s : ℚ) * latestAdjCloseD dh s) := by
      refine List.map_congr_left ?_
      intro s hs
      have hs' : s ∈ p.symbol_list := h0 ▸ hs
      exact mvf_eq_latestAdjClose dh p.current_positions (hsl ▸ hs') (hall s hs')
    refine ⟨{ dt := b0.dt
              values := (holdingsLoop dh p.current_positions (s0 :: tl) (fun _ => 0)
                (p.current_holdings.cash - p.current_holdings.commission)).1
              cash := p.current_holdings.cash
              commission := p.current_holdings.commission
              total := (holdingsLoop dh p.current_positions (s0 :: tl) (fun _ => 0)
                (p.current_holdings.cash - p.current_holdings.commission)).2 },
      ?_, ?_, rfl, rfl, ?_⟩
    · simp [NaivePortfolio.update_timeindex, h0, hgl]
    · simp [NaivePortfolio.update_timeindex, h0, hgl]
    · show (holdingsLoop dh p.current_positions (s0 :: tl) (fun _ => 0)
        (p.current_holdings.cash - p.current_holdings.commission)).2 = _
      rw [holdingsLoop_total, hmap]

/-- `SeededLedgers` is stable when ledgers, start date and capital are untouched. -/
theorem seeded_congr {p p' : NaivePortfolio}
    (hp : p'.all_positions = p.all_positions) (hh : p'.all_holdings = p.all_holdings)
    (hsd : p'.start_date = p.start_date) (hic : p'.initial_capital = p.initial_capital)
    (h : SeededLedgers p) : SeededLedgers p' := by
  unfold SeededLedgers at h ⊢
  rw [hp, hh, hsd, hic]
  exact h

/-- `SeededLedgers` is stable under appending one row to each ledger. -/
theorem seeded_append {p p' : NaivePortfolio} {dp : PositionsRow} {row : HoldingsRow}
    (hp : p'.all_positions = p.all_positions ++ [dp])
    (hh : p'.all_holdings = p.all_holdings ++ [row])
    (hsd : p'.start_date = p.start_date) (hic : p'.initial_capital = p.initial_capital)
    (h : SeededLedgers p) : SeededLedgers p' := by
  obtain ⟨hlen, ⟨r0, hr0, hr0dt, hr0pos⟩, ⟨h0, hh0, hh0dt, hh0c, hh0k, hh0t⟩⟩ := h
  have hpne : p.all_positions ≠ [] := by
    intro hx; rw [hx] at hr0; simp at hr0
  have hhne : p.all_holdings ≠ [] := by
    intro hx; rw [hx] at hh0; simp at hh0
  refine ⟨?_, ⟨r0, ?_, ?_, hr0pos⟩, ⟨h0, ?_, ?_, ?_, hh0k, ?_⟩⟩
  · rw [hp, hh]; simp [hlen]
  · rw [hp, List.head?_append_of_ne_nil _ hpne]; exact hr0
  · rw [hsd]; exact hr0dt
  · rw [hh, List.head?_append_of_ne_nil _ hhne]; exact hh0
  · rw [hsd]; exact hh0dt
  · rw [hic]; exact hh0c
  · rw [hic]; exact hh0t

/-- A freshly constructed portfolio has seeded, equal-length ledgers. -/
theorem init_seeded (sl : List String) (sd : Nat) (cap : ℚ) :
    SeededLedgers (NaivePortfolio.init sl sd cap) :=
  ⟨rfl, ⟨⟨sd, fun _ => 0⟩, rfl, rfl, fun _ => rfl⟩,
   ⟨⟨sd, fun _ => 0, cap, 0, cap⟩, rfl, rfl, rfl, rfl, rfl⟩⟩

/-- `update_timeindex` preserves the seeded-ledger invariant. -/
theorem update_timeindex_seeded (p : NaivePortfolio) (dh : DataHandler)
    (h : SeededLedgers p) : SeededLedgers (p.update_timeindex dh) := by
  rcases h0 : p.symbol_list with _ | ⟨s0, tl⟩
  · have he : p.update_timeindex dh = p := by
      simp [NaivePortfolio.update_timeindex, h0]
    rw [he]; exact h
  · rcases hgl : dh.get_latest_bars s0 1 with _ | bs
    · have he : p.update_timeindex dh = p := by
        simp [NaivePortfolio.update_timeindex, h0, hgl]
      rw [he]; exact h
    · rcases bs with _ | ⟨b, bs'⟩
      · have he : p.update_timeindex dh = p := by
          simp [NaivePortfolio.update_timeindex, h0, hgl]
        rw [he]; exact h
      · have hp : (p.update_timeindex dh).all_positions = p.all_positions ++
            [{ dt := b.dt,
               pos := fun s => if s ∈ p.symbol_list then p.current_positions s else 0 }] := by
          simp [NaivePortfolio.update_timeindex, h0, hgl]
        have hh : (p.update_timeindex dh).all_holdings = p.all_holdings ++
            [{ dt := b.dt
               values := (holdingsLoop dh p.current_positions p.symbol_list (fun _ => 0)
                 (p.current_holdings.cash - p.current_holdings.commission)).1
               cash := p.current_holdings.cash
               commission := p.current_holdings.commission
               total := (holdingsLoop dh p.current_positions p.symbol_list (fun _ => 0)
                 (p.current_holdings.cash - p.current_holdings.commission)).2 }] := by
          simp [NaivePortfolio.update_timeindex, h0, hgl]
        have hpar := update_timeindex_preserves_params p dh
        exact seeded_append hp hh hpar.1 hpar.2 h

/-- Every event dispatch preserves the seeded-ledger invariant. -/
theorem processEvent_seeded {σ : Type} (strat : Strategy σ) (now : Nat)
    (bt : Backtester σ) (e : Event) (h : SeededLedgers bt.portfolio) :
    SeededLedgers (processEvent strat now bt e).portfolio := by
  cases e with
  | market => exact update_timeindex_seeded _ _ h
  | signal sid sym dt st strength => exact h
  | order sym ot qty dir => exact h
  | fill dt sym exch qty dir price comm =>
    have hu := update_fill_preserves_ledgers bt.portfolio
      (Event.fill dt sym exch qty dir price comm)
    exact seeded_congr hu.1 hu.2.1 hu.2.2.1 hu.2.2.2 h

/-- Draining the queue preserves the seeded-ledger invariant. -/
theorem drain_seeded {σ : Type} (strat : Strategy σ) (now : Nat) :
    ∀ (fuel : Nat) (bt bt' : Backtester σ), drain strat now fuel bt = some bt' →
      SeededLedgers bt.portfolio → SeededLedgers bt'.portfolio := by
  intro fuel
  induction fuel with
  | zero =>
    intro bt bt' hd h
    cases hev : bt.events with
    | nil =>
      rw [drain, hev] at hd
      cases hd
      exact h
    | cons e rest => rw [drain, hev] at hd; cases hd
  | succ f ih =>
    intro bt bt' hd h
    cases hev : bt.events with
    | nil =>
      rw [drain, hev] at hd
      cases hd
      exact h
    | cons e rest =>
      rw [drain, hev] at hd
      exact ih _ _ hd (processEvent_seeded strat now _ e h)

/-- A whole engine run preserves the seeded-ledger invariant. -/
theorem runBacktest_seeded {σ : Type} (strat : Strategy σ) (now innerFuel : Nat) :
    ∀ (n : Nat) (bt bt' : Backtester σ), runBacktest strat now innerFuel n bt = some bt' →
      SeededLedgers bt.portfolio → SeededLedgers bt'.portfolio := by
  intro n
  induction n with
  | zero => intro bt bt' hr h; cases hr
  | succ m ih =>
    intro bt bt' hr h
    rw [runBacktest] at hr
    by_cases hc : bt.dh.continue_backtest
    · rw [if_pos hc] at hr
      cases hd : drain strat now innerFuel
          { bt with dh := (bt.dh.update_bars).1,
                    events := bt.events ++ (bt.dh.update_bars).2 } with
      | none => rw [hd] at hr; exact Option.noConfusion hr
      | some bt1 =>
        rw [hd] at hr
        exact ih _ _ hr (drain_seeded strat now innerFuel _ _ hd h)
    · rw [if_neg hc] at hr
      cases hr
      exact h

/-- A successful `drain` always returns with an empty queue. -/
theorem drain_some_empty {σ : Type} (strat : Strategy σ) (now : Nat) :
    ∀ (fuel : Nat) (bt bt' : Backtester σ), drain strat now fuel bt = some bt' →
      bt'.events = [] := by
  intro fuel
  induction fuel with
  | zero =>
    intro bt bt' hd
    cases hev : bt.events with
    | nil =>
      rw [drain, hev] at hd
      cases hd
      exact hev
    | cons e rest => rw [drain, hev] at hd; cases hd
  | succ f ih =>
    intro bt bt' hd
    cases hev : bt.events with
    | nil =>
      rw [drain, hev] at hd
      cases hd
      exact hev
    | cons e rest =>
      rw [drain, hev] at hd
      exact ih _ _ hd

/-- While the queue holds no Market event, draining never touches the ledgers:
Signal and Order dispatches only enqueue derived events (an order, a fill), and a Fill
dispatch only moves positions/cash — ledger rows are appended by Market dispatches
alone. -/
theorem drain_no_market_ledgers {σ : Type} (strat : Strategy σ) (now : Nat) :
    ∀ (fuel : Nat) (bt bt' : Backtester σ),
      (∀ e ∈ bt.events, e ≠ Event.market) →
      drain strat now fuel bt = some bt' →
      bt'.portfolio.all_holdings = bt.portfolio.all_holdings ∧
      bt'.portfolio.all_positions = bt.portfolio.all_positions := by
  intro fuel
  induction fuel with
  | zero =>
    intro bt bt' hq hd
    cases hev : bt.events with
    | nil =>
      rw [drain, hev] at hd
      cases hd
      exact ⟨rfl, rfl⟩
    | cons e rest => rw [drain, hev] at hd; cases hd
  | succ f ih =>
    intro bt bt' hq hd
    cases hev : bt.events with
    | nil =>
      rw [drain, hev] at hd
      cases hd
      exact ⟨rfl, rfl⟩
    | cons e rest =>
      rw [drain, hev] at hd
      have hqe : ∀ x ∈ e :: rest, x ≠ Event.market := hev ▸ hq
      have hrest : ∀ x ∈ rest, x ≠ Event.market := by
        intro x hx
        exact hqe x (List.mem_cons_of_mem e hx)
      cases e with
      | market => exact absurd rfl (hqe Event.market (List.mem_cons_self _ _))
      | signal sid sym dt st strength =>
        have hstep := ih _ _ ?_ hd
        · simpa [processEvent] using hstep
        · intro x hx
          simp only [processEvent, List.mem_append] at hx
          rcases hx with hx | hx
          · exact hrest x hx
          · simp [NaivePortfolio.update_signal] at hx
            subst hx
            simp
      | order sym ot qty dir =>
        have hstep := ih _ _ ?_ hd
        · simpa [processEvent] using hstep
        · intro x hx
          simp only [processEvent, List.mem_append] at hx
          rcases hx with hx | hx
          · exact hrest x hx
          · simp [execute_order] at hx
            subst hx
            simp
      | fill dt sym exch qty dir price comm =>
        have hstep := ih _ _ ?_ hd
        · have hu := update_fill_preserves_ledgers bt.portfolio
            (Event.fill dt sym exch qty dir price comm)
          constructor
          · rw [hstep.1]; simpa [processEvent] using hu.2.1
          · rw [hstep.2]; simpa [processEvent] using hu.1
        · intro x hx
          simp only [processEvent] at hx
          exact hrest x hx

/-! ## Claim theorems -/

/-- C1: at a bar tick — the queue holding exactly the Market event — the drained
state's holdings ledger is the old ledger plus exactly one row, whose `total` is
`cash − cumulative commission + Σ_s position_s × latest adjusted close of s`, all read
from the PRE-drain portfolio: fills dispatched later in the same drain already move
`current_positions` and cash, but the row for this bar was written first (one-bar-lag
rule; the fill's effect can only surface in the next bar's row). -/
theorem one_bar_lag_holdings_total {σ : Type} (strat : Strategy σ) (now fuel : Nat)
    (bt bt' : Backtester σ)
    (hq : bt.events = [Event.market])
    (hstrat : ∀ (st : σ) (dh : DataHandler) (e : Event),
      e ∈ (strat.calculate_signals st dh).2 → e ≠ Event.market)
    (hsl : bt.portfolio.symbol_list = bt.dh.symbol_list)
    (hnil : bt.portfolio.symbol_list ≠ [])
    (hall : ∀ s ∈ bt.portfolio.symbol_list, bt.dh.latest_symbol_data s ≠ [])
    (hdrain : drain strat now fuel bt = some bt') :
    ∃ r : HoldingsRow,
      bt'.portfolio.all_holdings = bt.portfolio.all_holdings ++ [r] ∧
      r.cash = bt.portfolio.current_holdings.cash ∧
      r.commission = bt.portfolio.current_holdings.commission ∧
      r.total = bt.portfolio.current_holdings.cash -
        bt.portfolio.current_holdings.commission +
        (bt.portfolio.symbol_list.map
          (fun s => (bt.portfolio.current_positions s : ℚ) *
            latestAdjCloseD bt.dh s)).sum := by
  cases fuel with
  | zero =>
    rw [drain, hq] at hdrain
    exact Option.noConfusion hdrain
  | succ f =>
    rw [drain, hq] at hdrain
    have hq1 : ∀ e ∈ (processEvent strat now { bt with events := ([] : List Event) }
        Event.market).events, e ≠ Event.market := by
      intro e he
      simp only [processEvent, List.nil_append] at he
      exact hstrat bt.strategyState bt.dh e he
    have hled := drain_no_market_ledgers strat now f _ bt' hq1 hdrain
    obtain ⟨r, _, hrow, hc, hk, ht⟩ :=
      update_timeindex_spec bt.portfolio bt.dh hsl hnil hall
    refine ⟨r, ?_, hc, hk, ht⟩
    rw [hled.1]
    simpa [processEvent] using hrow

/-- C1 witness: a concrete tick over `btTick` — the strategy's LONG signal becomes an
order and then a fill during the same drain, yet the appended holdings row is computed
from the pre-drain (flat) position. -/
theorem one_bar_lag_holdings_total_witness :
    (btTick.events = [Event.market] ∧
     btTick.portfolio.symbol_list = btTick.dh.symbol_list ∧
     btTick.portfolio.symbol_list ≠ [] ∧
     (∀ s ∈ btTick.portfolio.symbol_list, btTick.dh.latest_symbol_data s ≠ []) ∧
     drain constStrat 0 10 btTick = some btTickRes) ∧
    (∃ r : HoldingsRow,
      btTickRes.portfolio.all_holdings = btTick.portfolio.all_holdings ++ [r] ∧
      r.cash = btTick.portfolio.current_holdings.cash ∧
      r.commission = btTick.portfolio.current_holdings.commission ∧
      r.total = btTick.portfolio.current_holdings.cash -
        btTick.portfolio.current_holdings.commission +
        (btTick.portfolio.symbol_list.map
          (fun s => (btTick.portfolio.current_positions s : ℚ) *
            latestAdjCloseD btTick.dh s)).sum) :=
  ⟨⟨rfl, rfl, by decide, by decide, (Option.some_get (by decide)).symm⟩,
   one_bar_lag_holdings_total constStrat 0 10 btTick btTickRes rfl
     (fun st dh e he => by
       simp only [constStrat, List.mem_singleton] at he
       subst he
       intro hcontra
       cases hcontra)
     rfl (by decide) (by decide) ((Option.some_get (by decide)).symm)⟩

/-- C2 counterexample: with `barObs` (close 10, adjusted close 20) observed for `"A"`,
`execute_order` fills at 10 — the close — not at the adjusted close 20, refuting the
claim that the fill price is the latest adjusted close. -/
theorem fill_price_not_adjusted_close :
    execute_order (some dhObs) 0 (Event.order "A" "MKT" 100 "BUY") =
      [Event.fill 0 "A" "ARCA" 100 "BUY" 10 0] ∧
    latestAdjCloseD dhObs "A" = 20 ∧
    dhObs.latest_symbol_data "A" ≠ [] ∧ (10 : ℚ) ≠ 20 := by decide

/-- C2 amended: the fill price equals the latest observed CLOSE (tuple index 4, not
the adjusted close) whenever the handler is attached and at least one bar has been
observed for the order's symbol; otherwise it is the fixed fallback 75 (also for an
untracked symbol, whose `KeyError` the source swallows). -/
theorem fill_price_is_latest_close (dh : DataHandler) (now : Nat) (sym ot dir : String)
    (qty : Int) :
    execute_order (some dh) now (Event.order sym ot qty dir) =
      [Event.fill now sym "ARCA" qty dir
        (if sym ∈ dh.symbol_list ∧ dh.latest_symbol_data sym ≠ [] then latestCloseD dh sym
         else 75) 0] := by
  by_cases hmem : sym ∈ dh.symbol_list
  · by_cases hne : dh.latest_symbol_data sym = []
    · simp [execute_order, get_latest_bars_of_mem dh hmem, hne, pySliceLast]
    · obtain ⟨b, hb⟩ := Option.isSome_iff_exists.mp (List.getLast?_isSome.mpr hne)
      simp [execute_order, get_latest_bars_one dh hmem hb, latestCloseD, hb, hmem, hne]
  · simp [execute_order, DataHandler.get_latest_bars, hmem]

/-- C3 (code bug): with `"A"` trading only day 1 and `"B"` trading days 1 and 2, the
calendar built by `_open_convert_csv_files` is `[1]` — the `comb_index.union(...)`
result is discarded, so the calendar is just the first symbol's index — and day 2,
present only in `"B"`'s series, is absent from `"B"`'s replayed sequence, contrary to
the union-calendar rule the claim states. -/
theorem csv_calendar_drops_non_first_symbol_dates :
    (open_convert_csv_files rawC3 ["A", "B"]).2 = [1] ∧
    ((open_convert_csv_files rawC3 ["A", "B"]).1 "B").map Prod.fst = [1] ∧
    2 ∈ (rawC3 "B").map Bar.dt := by decide

/-- C4 counterexample: `"ZZZ"` is not tracked by `dhObs`, and `get_latest_bars` raises
`KeyError` (modelled `none`) instead of returning the empty sequence the claim
promises. -/
theorem get_latest_bars_unknown_symbol_cex :
    dhObs.get_latest_bars "ZZZ" 1 = none := by decide

/-- C4 amended: for every symbol outside the tracked set and every `n`,
`get_latest_bars` prints a message and re-raises the `KeyError` (modelled `none`); it
never returns a sequence, empty or otherwise. -/
theorem get_latest_bars_unknown_symbol_raises (dh : DataHandler) (sym : String)
    (n : Nat) (h : sym ∉ dh.symbol_list) : dh.get_latest_bars sym n = none := by
  simp [DataHandler.get_latest_bars, h]

/-- C4 witness: the amended statement applied to `dhObs` and `"ZZZ"`. -/
theorem get_latest_bars_unknown_symbol_raises_witness :
    "ZZZ" ∉ dhObs.symbol_list ∧ dhObs.get_latest_bars "ZZZ" 5 = none :=
  ⟨by decide, get_latest_bars_unknown_symbol_raises dhObs "ZZZ" 5 (by decide)⟩

/-- C5: every Signal event makes `update_signal` enqueue exactly one market (`"MKT"`)
order of the fixed quantity 100 whose direction is the signal's stated direction,
whatever the signal's strength. -/
theorem naive_signal_emits_single_fixed_order (p : NaivePortfolio) (sid : Nat)
    (sym : String) (dt : Nat) (signal_type : String) (strength : ℚ) :
    p.update_signal (Event.signal sid sym dt signal_type strength) =
      [Event.order sym "MKT" 100 signal_type] := rfl

/-- C6: `update_fill` on a BUY/SELL fill shifts the position of the fill's symbol by
`signed(direction) × quantity` (others untouched), debits cash by
`signed × price × quantity` plus the commission, accrues the commission, overwrites the
per-symbol last-fill-price memo, and appends exactly one trade whose profit follows the
single-slot memo rule: `(price − memo) × quantity` for a SELL after any prior fill,
`(memo − price) × quantity` for a BUY while the pre-fill position is negative, else
zero. -/
theorem update_fill_accounting (p : NaivePortfolio) (dt : Nat) (sym exch : String)
    (qty : Int) (dir : String) (price comm : ℚ)
    (_hsym : sym ∈ p.symbol_list) (hdir : dir = "BUY" ∨ dir = "SELL") :
    (p.update_fill (Event.fill dt sym exch qty dir price comm)).current_positions sym =
      p.current_positions sym + fill_dir_of dir * qty ∧
    (∀ s, s ≠ sym →
      (p.update_fill (Event.fill dt sym exch qty dir price comm)).current_positions s =
        p.current_positions s) ∧
    (p.update_fill (Event.fill dt sym exch qty dir price comm)).current_holdings.cash =
      p.current_holdings.cash - (fill_dir_of dir : ℚ) * (price * (qty : ℚ)) - comm ∧
    (p.update_fill
        (Event.fill dt sym exch qty dir price comm)).current_holdings.commission =
      p.current_holdings.commission + comm ∧
    (p.update_fill (Event.fill dt sym exch qty dir price comm)).last_fill_price sym =
      some price ∧
    (p.update_fill (Event.fill dt sym exch qty dir price comm)).all_trades =
      p.all_trades ++
        [{ symbol := sym, direction := dir, quantity := qty, price := price,
           commission := comm,
           profit :=
             match p.last_fill_price sym with
             | some lastp =>
               if dir = "SELL" then (price - lastp) * (qty : ℚ)
               else if p.current_positions sym < 0 then (lastp - price) * (qty : ℚ)
               else 0
             | none => 0,
           dt := dt }] := by
  rcases hdir with h | h <;> subst h <;>
    cases hl : p.last_fill_price sym <;>
      refine ⟨?_, fun s hs => ?_, ?_, ?_, ?_, ?_⟩ <;>
        simp_all [NaivePortfolio.update_fill, updMap, fill_dir_of]

/-- C6 witness: a SELL of 100 units at 12 against `pShort` (memo 8, short 50): the
position moves by `−1 × 100` and the recorded profit is `(12 − 8) × 100`. -/
theorem update_fill_accounting_witness :
    ("A" ∈ pShort.symbol_list ∧ (("SELL" : String) = "BUY" ∨ ("SELL" : String) = "SELL")) ∧
    ((pShort.update_fill (Event.fill 3 "A" "ARCA" 100 "SELL" 12 1)).current_positions "A" =
      pShort.current_positions "A" + fill_dir_of "SELL" * 100 ∧
     (∀ s, s ≠ "A" →
       (pShort.update_fill (Event.fill 3 "A" "ARCA" 100 "SELL" 12 1)).current_positions s =
         pShort.current_positions s) ∧
     (pShort.update_fill
         (Event.fill 3 "A" "ARCA" 100 "SELL" 12 1)).current_holdings.cash =
       pShort.current_holdings.cash - (fill_dir_of "SELL" : ℚ) * (12 * ((100 : Int) : ℚ)) - 1 ∧
     (pShort.update_fill
         (Event.fill 3 "A" "ARCA" 100 "SELL" 12 1)).current_holdings.commission =
       pShort.current_holdings.commission + 1 ∧
     (pShort.update_fill (Event.fill 3 "A" "ARCA" 100 "SELL" 12 1)).last_fill_price "A" =
       some 12 ∧
     (pShort.update_fill (Event.fill 3 "A" "ARCA" 100 "SELL" 12 1)).all_trades =
       pShort.all_trades ++
         [{ symbol := "A", direction := "SELL", quantity := 100, price := 12,
            commission := 1,
            profit :=
              match pShort.last_fill_price "A" with
              | some lastp =>
                if ("SELL" : String) = "SELL" then ((12 : ℚ) - lastp) * ((100 : Int) : ℚ)
                else if pShort.current_positions "A" < 0 then
                  (lastp - 12) * ((100 : Int) : ℚ)
                else 0
              | none => 0,
            dt := 3 }]) :=
  ⟨⟨by decide, Or.inr rfl⟩,
   update_fill_accounting pShort 3 "A" "ARCA" 100 "SELL" 12 1 (by decide) (Or.inr rfl)⟩

/-- C7: the positions and holdings ledgers of any engine run keep equal lengths and
keep starting with the seeded `start_date` row whose holdings total is exactly
`initial_capital`; a fresh portfolio satisfies the invariant with first-row total equal
to the capital, `update_timeindex` appends one row to both ledgers or to neither, and
`update_fill` appends to neither. -/
theorem ledger_lengths_and_seed {σ : Type} (strat : Strategy σ) (now innerFuel n : Nat)
    (bt bt' : Backtester σ)
    (hrun : runBacktest strat now innerFuel n bt = some bt')
    (hinv : SeededLedgers bt.portfolio) :
    SeededLedgers bt'.portfolio ∧
    (∀ (sl : List String) (sd : Nat) (cap : ℚ),
      SeededLedgers (NaivePortfolio.init sl sd cap) ∧
      ((NaivePortfolio.init sl sd cap).all_holdings.head?).map HoldingsRow.total =
        some cap) ∧
    (∀ (p : NaivePortfolio) (dh : DataHandler),
      ((p.update_timeindex dh).all_positions.length = p.all_positions.length + 1 ∧
       (p.update_timeindex dh).all_holdings.length = p.all_holdings.length + 1) ∨
      p.update_timeindex dh = p) ∧
    (∀ (p : NaivePortfolio) (e : Event),
      (p.update_fill e).all_positions = p.all_positions ∧
      (p.update_fill e).all_holdings = p.all_holdings) :=
  ⟨runBacktest_seeded strat now innerFuel n bt bt' hrun hinv,
   fun sl sd cap => ⟨init_seeded sl sd cap, rfl⟩,
   update_timeindex_shape,
   fun p e => ⟨(update_fill_preserves_ledgers p e).1,
     (update_fill_preserves_ledgers p e).2.1⟩⟩

/-- C7 witness: a full two-bar buy-and-hold run preserves the seeded-ledger
invariant. -/
theorem ledger_lengths_and_seed_witness :
    (runBacktest (buyAndHold 5) 5 10 5 btRun = some btRunRes ∧
     SeededLedgers btRun.portfolio) ∧
    (SeededLedgers btRunRes.portfolio ∧
     (∀ (sl : List String) (sd : Nat) (cap : ℚ),
       SeededLedgers (NaivePortfolio.init sl sd cap) ∧
       ((NaivePortfolio.init sl sd cap).all_holdings.head?).map HoldingsRow.total =
         some cap) ∧
     (∀ (p : NaivePortfolio) (dh : DataHandler),
       ((p.update_timeindex dh).all_positions.length = p.all_positions.length + 1 ∧
        (p.update_timeindex dh).all_holdings.length = p.all_holdings.length + 1) ∨
       p.update_timeindex dh = p) ∧
     (∀ (p : NaivePortfolio) (e : Event),
       (p.update_fill e).all_positions = p.all_positions ∧
       (p.update_fill e).all_holdings = p.all_holdings)) :=
  ⟨⟨(Option.some_get (by decide)).symm, init_seeded ["A"] 0 100000⟩,
   ledger_lengths_and_seed (buyAndHold 5) 5 10 5 btRun btRunRes
     ((Option.some_get (by decide)).symm) (init_seeded ["A"] 0 100000)⟩

/-- C8 (code bug): on a ledger whose first and last rows share a timestamp,
`calculate_cagr` evaluates `365.0 / days` with `days = 0` and raises
`ZeroDivisionError` (modelled `none`), whatever the float-power semantics `pw` — yet
the claim (and spec §4.5/§7) says no metric ever raises on a zero denominator. -/
theorem calculate_cagr_zero_days_raises (pw : ℚ → ℚ → ℚ) :
    calculate_cagr pw sameDayLedger = none := rfl

/-- C9: the engine drains the FIFO queue to empty before asking the feed to advance
again — whenever the inner loop (`drain`) completes, the resulting queue is empty —
and feed exhaustion is terminal: once `continue_backtest` is false the outer loop
breaks immediately and returns the state unchanged, however many iterations remain. -/
theorem queue_drained_before_advance_and_finished_terminal {σ : Type}
    (strat : Strategy σ) (now innerFuel fuel : Nat) (bt bt' btF : Backtester σ)
    (hdrain : drain strat now fuel bt = some bt')
    (hfin : btF.dh.continue_backtest = false) :
    bt'.events = [] ∧
    ∀ n : Nat, runBacktest strat now innerFuel (n + 1) btF = some btF := by
  refine ⟨drain_some_empty strat now fuel bt bt' hdrain, fun n => ?_⟩
  rw [runBacktest, if_neg (by rw [hfin]; exact Bool.false_ne_true)]

/-- C9 witness: draining the concrete tick `btTick` ends with an empty queue, and the
exhausted state `btFin` is a fixed point of the outer loop. -/
theorem queue_drained_before_advance_and_finished_terminal_witness :
    (drain constStrat 0 10 btTick = some btTickRes ∧
     btFin.dh.continue_backtest = false) ∧
    (btTickRes.events = [] ∧
     ∀ n : Nat, runBacktest constStrat 0 10 (n + 1) btFin = some btFin) :=
  ⟨⟨(Option.some_get (by decide)).symm, rfl⟩,
   queue_drained_before_advance_and_finished_terminal constStrat 0 10 10 btTick btTickRes
     btFin ((Option.some_get (by decide)).symm) rfl⟩

/-- C10: an EXIT signal's direction is passed through verbatim to the order by
`update_signal` and to the fill by `execute_order`, and `update_fill` treats any
direction that is neither `"BUY"` nor `"SELL"` as a BUY: the position grows by the fill
quantity and cash shrinks by `price × quantity` (plus the commission), so an EXIT
signal never closes a position. -/
theorem exit_fill_treated_as_buy (p psig : NaivePortfolio) (sid : Nat) (sym : String)
    (sdt : Nat) (strength : ℚ) (dh : DataHandler) (now dt : Nat) (exch : String)
    (qty : Int) (dir : String) (price comm : ℚ)
    (_hsym : sym ∈ p.symbol_list) (hdir : dir ≠ "BUY" ∧ dir ≠ "SELL") :
    psig.update_signal (Event.signal sid sym sdt "EXIT" strength) =
      [Event.order sym "MKT" 100 "EXIT"] ∧
    (execute_order (some dh) now (Event.order sym "MKT" 100 "EXIT")).map fillDirection =
      ["EXIT"] ∧
    (p.update_fill (Event.fill dt sym exch qty dir price comm)).current_positions sym =
      p.current_positions sym + qty ∧
    (p.update_fill (Event.fill dt sym exch qty dir price comm)).current_holdings.cash =
      p.current_holdings.cash - price * (qty : ℚ) - comm := by
  obtain ⟨h1, h2⟩ := hdir
  refine ⟨rfl, ?_, ?_, ?_⟩
  · simp [execute_order, fillDirection]
  · simp [NaivePortfolio.update_fill, updMap, fill_dir_of, h1, h2]
  · simp [NaivePortfolio.update_fill, fill_dir_of, h1, h2]

/-- C10 witness: an EXIT fill of 100 units at price 10 against a flat portfolio raises
the position to +100 instead of closing anything. -/
theorem exit_fill_treated_as_buy_witness :
    ("A" ∈ pA.symbol_list ∧ ("EXIT" : String) ≠ "BUY" ∧ ("EXIT" : String) ≠ "SELL") ∧
    (pA.update_signal (Event.signal 1 "A" 0 "EXIT" 1) =
       [Event.order "A" "MKT" 100 "EXIT"] ∧
     (execute_order (some dhObs) 0 (Event.order "A" "MKT" 100 "EXIT")).map fillDirection =
       ["EXIT"] ∧
     (pA.update_fill (Event.fill 3 "A" "ARCA" 100 "EXIT" 10 0)).current_positions "A" =
       pA.current_positions "A" + 100 ∧
     (pA.update_fill (Event.fill 3 "A" "ARCA" 100 "EXIT" 10 0)).current_holdings.cash =
       pA.current_holdings.cash - 10 * ((100 : Int) : ℚ) - 0) :=
  ⟨⟨by decide, by decide, by decide⟩,
   exit_fill_treated_as_buy pA pA 1 "A" 0 1 dhObs 0 3 "ARCA" 100 "EXIT" 10 0
     (by decide) ⟨by decide, by decide⟩⟩

end PyBacktester
